import Mathlib

/-!
Verification of `population_to_od.py`: a shallow embedding of the program's
core (network loading, nearest-node lookup, plan reconstruction and trip
extraction) together with proofs of the specification claims.

Conventions of the embedding:
  * Python strings are Lean `String`s; an attribute read via `elem.get(k)`
    is an `Option String` (`none` when the attribute is absent).
  * Python `int(s)` / `float(s)` are modelled by `pyInt?` / `pyFloat?`
    (optional surrounding whitespace, optional sign, decimal digits and,
    for floats, an optional fractional part; exotic float spellings such
    as exponents, `inf` and `nan` are outside the inputs of interest).
    Coordinates are modelled as exact rationals.
  * Python truthiness of an optional string (`if not s`) is `pyTruthy`.
  * String helpers are defined over `List Char` by structural recursion so
    every definition evaluates inside the kernel.
-/

/-- Characters stripped by Python `str.strip()` (the ASCII ones). -/
def isPySpace (c : Char) : Bool :=
  c = ' ' || c = '\t' || c = '\n' || c = '\r'

/-- Model of Python `str.strip()` on a character list. -/
def pyStrip (l : List Char) : List Char :=
  ((l.dropWhile isPySpace).reverse.dropWhile isPySpace).reverse

/-- Split a character list at every occurrence of `sep`, Python
`str.split(sep)` style: no collapsing, `[]` splits to `[[]]`. -/
def splitChars (sep : Char) : List Char → List (List Char)
  | [] => [[]]
  | c :: rest =>
    let r := splitChars sep rest
    if c = sep then [] :: r
    else
      match r with
      | [] => [[c]]
      | g :: gs => (c :: g) :: gs

/-- Model of Python `s.split(sep)` for a one-character separator. -/
def pySplit (s : String) (sep : Char) : List String :=
  (splitChars sep s.data).map List.asString

/-- Value of a list of decimal digits. -/
def digitsVal (l : List Char) : Nat :=
  l.foldl (fun n c => n * 10 + (c.toNat - 48)) 0

/-- Model of Python `int(s)`: optional surrounding whitespace, optional
sign, at least one decimal digit; any other input raises `ValueError`
(modelled as `none`). -/
def pyInt? (s : String) : Option Int :=
  match pyStrip s.data with
  | [] => none
  | c :: rest =>
    let signed : Bool := c = '-' || c = '+'
    let body := if signed then rest else c :: rest
    if body ≠ [] ∧ body.all Char.isDigit then
      some ((if c = '-' then -1 else 1) * (digitsVal body : Int))
    else none

/-- Model of Python `float(s)` restricted to plain decimal spellings:
optional whitespace and sign, digits with an optional fractional part.
The result is the exact rational value. -/
def pyFloat? (s : String) : Option ℚ :=
  match pyStrip s.data with
  | [] => none
  | c :: rest =>
    let signed : Bool := c = '-' || c = '+'
    let body := if signed then rest else c :: rest
    match splitChars '.' body with
    | [ip] =>
      if ip ≠ [] ∧ ip.all Char.isDigit then
        some ((if c = '-' then -1 else 1) * (digitsVal ip : ℚ))
      else none
    | [ip, fp] =>
      if (ip ≠ [] ∨ fp ≠ []) ∧ ip.all Char.isDigit ∧ fp.all Char.isDigit then
        some ((if c = '-' then -1 else 1) *
          ((digitsVal ip : ℚ) + (digitsVal fp : ℚ) / (10 : ℚ) ^ fp.length))
      else none
    | _ => none

/-- Python truthiness of an optional string: `None` and `""` are falsy. -/
def pyTruthy : Option String → Bool
  | none => false
  | some s => !s.isEmpty

/-- Model of Python `list(map(int, parts))`: the first `ValueError`
aborts the whole conversion. -/
def mapIntParts : List String → Option (List Int)
  | [] => some []
  | p :: ps =>
    match pyInt? p with
    | none => none
    | some v =>
      match mapIntParts ps with
      | none => none
      | some vs => some (v :: vs)

/-- Embedding of `time_to_seconds` (source lines 10-22): `None`/empty
input gives `None`; otherwise split on `:`, map Python `int` over all
parts (a `ValueError` anywhere gives `None`), and accept exactly three
(`H*3600+M*60+S`) or two (`H*3600+M*60`) parts. -/
def time_to_seconds (time_str : Option String) : Option Int :=
  match time_str with
  | none => none
  | some s =>
    if s.isEmpty then none
    else
      match mapIntParts (pySplit s ':') with
      | some parts =>
        match parts with
        | [h, m, sec] => some (h * 3600 + m * 60 + sec)
        | [h, m] => some (h * 3600 + m * 60)
        | _ => none
      | none => none

/-- Raw attributes of a `<node>` element in the network file. -/
structure NodeRec where
  id : Option String
  x : Option String
  y : Option String
deriving DecidableEq

/-- Raw attributes of a `<link>` element in the network file (`from` and
`to` are Lean keywords, so the fields are `frm` and `toNode`). -/
structure LinkRec where
  id : Option String
  frm : Option String
  toNode : Option String
deriving DecidableEq

/-- One registered entry of `links_from_node_map`: the dict
`{'id': link_id, 'to': to_node}`. -/
structure LinkEntry where
  id : String
  toNode : String
deriving DecidableEq

/-- The Python dict `links_from_node_map` (node id -> list of entries),
modelled as an insertion-ordered association list. -/
abbrev LinksMap : Type := List (String × List LinkEntry)

/-- Entries registered under a key of the dict (`[]` when absent: the code
only ever appends to a list it just created, so an absent key and an empty
list are observably the same). -/
def lookupLinks : LinksMap → String → List LinkEntry
  | [], _ => []
  | (k, es) :: rest, key => if k = key then es else lookupLinks rest key

/-- Registration `links_from_node_map[from_node].append(...)` with key
creation (source lines 77-80). -/
def addLink : LinksMap → String → LinkEntry → LinksMap
  | [], key, e => [(key, [e])]
  | (k, es) :: rest, key, e =>
    if k = key then (k, es ++ [e]) :: rest
    else (k, es) :: addLink rest key e

/-- Whether a `<link>` element passes the attribute check
`if link_id and from_node and to_node` (source line 77). -/
def linkValid (l : LinkRec) : Bool :=
  pyTruthy l.id && pyTruthy l.frm && pyTruthy l.toNode

/-- The registered entry a valid link contributes. -/
def linkEntryOf (l : LinkRec) : LinkEntry :=
  ⟨l.id.getD (""), l.toNode.getD ("")⟩

/-- The link-registration pass of `load_network_data` (source lines
72-83): valid links are appended, in file order, to the list of their
`from` node. -/
def buildLinksMap (links : List LinkRec) : LinksMap :=
  links.foldl
    (fun m l => if linkValid l then addLink m (l.frm.getD ("")) (linkEntryOf l) else m)
    []

/-- Embedding of `find_outgoing_link` (source lines 24-28). -/
def find_outgoing_link (node_id_from : String) (links_map : LinksMap) : String :=
  match lookupLinks links_map node_id_from with
  | [] => "UNKNOWN_LINK"
  | e :: _ => e.id

/-- Claim C7, spec side: the id of the first link registered during load
whose `from` equals the node, with sentinel "UNKNOWN_LINK". -/
def firstOutgoingSpec (node : String) (links : List LinkRec) : String :=
  match links.filter (fun l => linkValid l && l.frm = some node) with
  | [] => "UNKNOWN_LINK"
  | l :: _ => l.id.getD ("")

/-- Squared Euclidean distance on rational coordinates. (The KD-tree
compares true Euclidean distances; the minimizer is the same.) -/
def sqDist (a b : ℚ × ℚ) : ℚ :=
  (a.1 - b.1) ^ 2 + (a.2 - b.2) ^ 2

/-- Modelled from the spec: the nearest-neighbour query of
`scipy.spatial.KDTree` (not part of this repository). Per §4.1 it returns
the index of the point minimizing Euclidean distance to the query, ties
broken by first insertion order. Linear argmin with strict improvement. -/
def nearestAux (q : ℚ × ℚ) : List (ℚ × ℚ) → Nat → Nat × ℚ → Nat × ℚ
  | [], _, best => best
  | p :: rest, i, best =>
    if sqDist q p < best.2 then nearestAux q rest (i + 1) (i, sqDist q p)
    else nearestAux q rest (i + 1) best

/-- Modelled from the spec: index returned by `kdtree.query([x, y])` on
the point list the tree was built from (never called on an empty tree:
`load_network_data` aborts when no node was found). -/
def nearestIdx (pts : List (ℚ × ℚ)) (q : ℚ × ℚ) : Nat :=
  match pts with
  | [] => 0
  | p :: rest => (nearestAux q rest 1 (0, sqDist q p)).1

/-- Embedding of `find_closest_node_kdtree` (source lines 106-112): the
KD-tree is `none` or the list of points it was built from; the result is
the id at the returned index of `node_id_map_list`. -/
def find_closest_node_kdtree (coord_x coord_y : ℚ)
    (kdtree : Option (List (ℚ × ℚ))) (node_id_map_list : List String) : Option String :=
  match kdtree with
  | none => none
  | some pts => node_id_map_list.get? (nearestIdx pts (coord_x, coord_y))

/-- The node-loading pass of `load_network_data` (source lines 46-63):
for each `<node>` with truthy `id` and present `x`, `y`, parse both
coordinates; on success append the pair to the coordinate list and the id
to the id list, otherwise skip the node with a warning. -/
def loadNodeStep (acc : List (ℚ × ℚ) × List String) (n : NodeRec) :
    List (ℚ × ℚ) × List String :=
  if pyTruthy n.id ∧ n.x.isSome ∧ n.y.isSome then
    match pyFloat? (n.x.getD ("")), pyFloat? (n.y.getD ("")) with
    | some cx, some cy => (acc.1 ++ [(cx, cy)], acc.2 ++ [n.id.getD ("")])
    | _, _ => acc
  else acc

/-- The node pass folds `loadNodeStep` over the node elements. -/
def loadNodes (nodes : List NodeRec) : List (ℚ × ℚ) × List String :=
  nodes.foldl loadNodeStep ([], [])

/-- The parsed network data returned by `load_network_data`: the KD-tree
is identified with the coordinate list it is built from. -/
structure NetworkData where
  node_coords : List (ℚ × ℚ)
  node_ids : List String
  links_map : LinksMap
deriving DecidableEq

/-- A network file as handed to `load_network_data`: missing, not
well-formed XML, or a parsed sequence of node and link elements. -/
inductive NetFile
  | missing
  | malformed
  | ok (nodes : List NodeRec) (links : List LinkRec)
deriving DecidableEq

/-- Embedding of `load_network_data` (source lines 32-104): missing file
or XML syntax error give `None, None, None`; an empty node list after the
pass gives `None, None, None`; otherwise the KD-tree data, the id list
and the link map. -/
def load_network_data : NetFile → Option NetworkData
  | .missing => none
  | .malformed => none
  | .ok nodes links =>
    let nd := loadNodes nodes
    if nd.1 = [] then none
    else some ⟨nd.1, nd.2, buildLinksMap links⟩

/-- The two-node network used for concrete witnesses. -/
def netFileC : NetFile :=
  .ok [⟨some ("n1"), some ("0"), some ("0")⟩, ⟨some ("n2"), some ("10"), some ("10")⟩]
    [⟨some ("l1"), some ("n1"), some ("n2")⟩]

/-- The network data `load_network_data` produces for `netFileC`. -/
def netC : NetworkData :=
  ⟨[((0 : ℚ), (0 : ℚ)), ((10 : ℚ), (10 : ℚ))], ["n1", "n2"],
    buildLinksMap [⟨some ("l1"), some ("n1"), some ("n2")⟩]⟩

/-- The `details` dict stored for an `<activity>` plan item (source lines
162-176). -/
structure ActivityDetails where
  coords : Option (ℚ × ℚ)
  end_time : Option String
  activity_type : Option String
deriving DecidableEq

/-- A `plan_items` entry: an activity's details, or a leg's attribute
dict (only `mode` and `dep_time` are ever read from it). -/
inductive PlanItem
  | activity (details : ActivityDetails)
  | leg (mode : Option String) (dep_time : Option String)
deriving DecidableEq

/-- Parsing of an `<activity>` element on its end event (source lines
156-176): coordinates are set only when both attributes are present and
both parse as floats. -/
def parseActivityDetails (x y end_time ty : Option String) : ActivityDetails :=
  let coords :=
    match x, y with
    | some xs, some ys =>
      match pyFloat? xs, pyFloat? ys with
      | some cx, some cy => some (cx, cy)
      | _, _ => none
    | _, _ => none
  ⟨coords, end_time, ty⟩

/-- The iterparse events `process_population` reacts to (source lines
140-238).  Start events exist for every element; only `person` and `plan`
start events are inspected, the rest are `startOther`.  End events for
`activity`, `leg`, `plan` and `person` are inspected; the rest are
`endOther`. -/
inductive XmlEvent
  | startPerson (id : Option String)
  | startPlan (selected : Option String)
  | startOther
  | endActivity (x y end_time ty : Option String)
  | endLeg (mode dep_time : Option String)
  | endPlan
  | endPerson
  | endOther
deriving DecidableEq

/-- Trip name `f"t{trip_counter}"`. -/
def tName (n : Nat) : String :=
  "t" ++ toString n

/-- The trip record string (source lines 214-223): plain interpolation of
the id strings and the start seconds, no XML escaping. -/
def renderTrip (name origin destination link_origin : String) (start : Int) : String :=
  "  <trip name=\"" ++ name ++
  "\" origin=\"" ++ origin ++
  "\" destination=\"" ++ destination ++
  "\" link_origin=\"" ++ link_origin ++
  "\" count=\"1\" start=\"" ++ toString start ++
  "\" mode=\"car\" digital_rails_capable=\"false\"/>\n"

/-- Start-time selection for a leg (source lines 194-198): take
`dep_time` when truthy (present and nonempty), else the previous
activity's `end_time`, and convert. -/
def legStart (dep_time end_time : Option String) : Option Int :=
  time_to_seconds (if pyTruthy dep_time then dep_time else end_time)

/-- The body of the car-leg branch (source lines 193-224): require both
coordinate pairs, a convertible start time, and truthy resolved node ids;
the produced line uses trip number `c + 1`. -/
def legTrip (net : NetworkData) (c : Nat) (abd afd : ActivityDetails)
    (dep_time : Option String) : Option String :=
  match abd.coords, afd.coords with
  | some ab, some af =>
    match legStart dep_time abd.end_time with
    | some startSec =>
      match find_closest_node_kdtree ab.1 ab.2 (some net.node_coords) net.node_ids,
            find_closest_node_kdtree af.1 af.2 (some net.node_coords) net.node_ids with
      | some o, some d =>
        if !o.isEmpty && !d.isEmpty then
          some (renderTrip (tName (c + 1)) o d (find_outgoing_link o net.links_map) startSec)
        else none
      | _, _ => none
    | none => none
  | _, _ => none

/-- The plan-scan loop on plan end (source lines 183-224): track the most
recent activity, and at each car leg with a tracked previous activity and
an immediately following activity try to emit a trip; `c` is the running
trip counter. -/
def scanEmit (net : NetworkData) :
    Option ActivityDetails → Nat → List PlanItem → List String × Nat
  | _, c, [] => ([], c)
  | _, c, .activity d :: rest => scanEmit net (some d) c rest
  | none, c, .leg _ _ :: rest => scanEmit net none c rest
  | some abd, c, .leg mode dep :: rest =>
    if mode = some ("car") then
      match rest with
      | .activity afd :: _ =>
        match legTrip net c abd afd dep with
        | some line =>
          let r := scanEmit net (some abd) (c + 1) rest
          (line :: r.1, r.2)
        | none => scanEmit net (some abd) c rest
      | _ => scanEmit net (some abd) c rest
    else scanEmit net (some abd) c rest

/-- The mutable state of `process_population`'s event loop, together with
the trip lines written so far (`out` excludes the two root tags). -/
structure PState where
  trip_counter : Nat
  person_counter : Nat
  current_person_id : Option String
  is_selected_plan : Bool
  plan_items : List PlanItem
  out : List String
deriving DecidableEq

/-- State at the top of `process_population` (source lines 124-129). -/
def initState : PState :=
  ⟨0, 0, none, false, [], []⟩

/-- One iteration of the event loop of `process_population` (source lines
140-238). -/
def step (net : NetworkData) (s : PState) : XmlEvent → PState
  | .startPerson pid =>
    { s with current_person_id := pid, person_counter := s.person_counter + 1 }
  | .startPlan sel =>
    if s.current_person_id.isSome then
      if sel = some ("yes") then { s with is_selected_plan := true, plan_items := [] }
      else { s with is_selected_plan := false }
    else s
  | .startOther => s
  | .endActivity x y et ty =>
    if s.is_selected_plan then
      { s with plan_items := s.plan_items ++ [.activity (parseActivityDetails x y et ty)] }
    else s
  | .endLeg mode dep =>
    if s.is_selected_plan then
      { s with plan_items := s.plan_items ++ [.leg mode dep] }
    else s
  | .endPlan =>
    if s.current_person_id.isSome then
      let r :=
        if s.is_selected_plan then scanEmit net none s.trip_counter s.plan_items
        else ([], s.trip_counter)
      { s with out := s.out ++ r.1, trip_counter := r.2,
               is_selected_plan := false, plan_items := [] }
    else s
  | .endPerson => { s with current_person_id := none }
  | .endOther => s

/-- Run the event loop from a given state. -/
def runFrom (net : NetworkData) (s : PState) (events : List XmlEvent) : PState :=
  events.foldl (step net) s

/-- Run the event loop from the initial state. -/
def runEvents (net : NetworkData) (events : List XmlEvent) : PState :=
  runFrom net initState events

/-- Activity details used in concrete runs: at (0,0), ends 07:00:00. -/
def abdC : ActivityDetails := ⟨some ((0 : ℚ), (0 : ℚ)), some ("07:00:00"), none⟩

/-- Activity details used in concrete runs: at (10,10). -/
def afdC : ActivityDetails := ⟨some ((10 : ℚ), (10 : ℚ)), none, none⟩

/-- A raw plan child element of the population document. -/
inductive RawItem
  | activity (x y end_time ty : Option String)
  | leg (mode dep_time : Option String)
deriving DecidableEq

/-- The plan item the machine builds for a raw element. -/
def parseItem : RawItem → PlanItem
  | .activity x y et ty => .activity (parseActivityDetails x y et ty)
  | .leg mode dep => .leg mode dep

/-- The iterparse events of one plan child element. -/
def itemEvents : RawItem → List XmlEvent
  | .activity x y et ty => [.startOther, .endActivity x y et ty]
  | .leg mode dep => [.startOther, .endLeg mode dep]

/-- A `<plan>` element of the population document. -/
structure PlanDoc where
  selected : Option String
  items : List RawItem
deriving DecidableEq

/-- A `<person>` element of the population document. -/
structure PersonDoc where
  pid : Option String
  plans : List PlanDoc
deriving DecidableEq

/-- The iterparse events of a `<plan>` element. -/
def planEvents (p : PlanDoc) : List XmlEvent :=
  .startPlan p.selected :: (p.items.flatMap itemEvents ++ [.endPlan])

/-- The iterparse events of a `<person>` element. -/
def personEvents (p : PersonDoc) : List XmlEvent :=
  .startPerson p.pid :: (p.plans.flatMap planEvents ++ [.endPerson])

/-- The iterparse events of a well-formed population document (the root
element contributes only ignored events). -/
def docEvents (doc : List PersonDoc) : List XmlEvent :=
  .startOther :: (doc.flatMap personEvents ++ [.endOther])

/-- The trips and final counter the plans of one person contribute: each
plan whose `selected` attribute is exactly "yes" is scanned independently
(fresh previous-activity tracking, fresh items), in document order; every
other plan contributes nothing. -/
def emitPlans (net : NetworkData) (c : Nat) : List PlanDoc → List String × Nat
  | [] => ([], c)
  | p :: rest =>
    if p.selected = some ("yes") then
      let r := scanEmit net none c (p.items.map parseItem)
      let r2 := emitPlans net r.2 rest
      (r.1 ++ r2.1, r2.2)
    else emitPlans net c rest

/-- The trips and final counter a whole document contributes. -/
def emitDoc (net : NetworkData) (c : Nat) : List PersonDoc → List String × Nat
  | [] => ([], c)
  | p :: rest =>
    let r := emitPlans net c p.plans
    let r2 := emitDoc net r.2 rest
    (r.1 ++ r2.1, r2.2)

/-- The count of qualifying car legs of a plan-item sequence, as the
claims describe it: a leg whose mode is exactly "car", with a
most-recently-seen previous activity, an immediately following activity,
coordinates on both, and a convertible start time per the code's
dep_time/end_time selection. -/
def qualCountSpec : Option ActivityDetails → List PlanItem → Nat
  | _, [] => 0
  | _, .activity d :: rest => qualCountSpec (some d) rest
  | ab, .leg mode dep :: rest =>
    (match ab, rest with
     | some abd, .activity afd :: _ =>
       if mode = some ("car") ∧ abd.coords.isSome ∧ afd.coords.isSome ∧
          (legStart dep abd.end_time).isSome
       then 1 else 0
     | _, _ => 0) + qualCountSpec ab rest

/-- The qualifying-leg count of a whole document: sum over persons and
over their plans selected with exactly "yes". -/
def docQualCountSpec (doc : List PersonDoc) : Nat :=
  (doc.map (fun p =>
    ((p.plans.filter (fun q => q.selected = some ("yes"))).map
      (fun q => qualCountSpec none (q.items.map parseItem))).sum)).sum

/-- Invariant of successfully loaded network data. -/
def loadInv (nd : NetworkData) : Prop :=
  nd.node_coords ≠ [] ∧ nd.node_coords.length = nd.node_ids.length ∧
    ∀ nid ∈ nd.node_ids, nid.isEmpty = false

/-- The population document used in concrete witnesses: one person, one
selected plan, activity at (0,0) ending 07:00:00, car leg, activity at
(10,10). -/
def docC : List PersonDoc :=
  [⟨some ("p1"),
    [⟨some ("yes"),
      [RawItem.activity (some ("0")) (some ("0")) (some ("07:00:00")) none,
       RawItem.leg (some ("car")) none,
       RawItem.activity (some ("10")) (some ("10")) none none]⟩]⟩]

/-- Invariant tying the trip counter to the emitted lines and each line's
position to its trip name. -/
def TripNamesInv (s : PState) : Prop :=
  s.trip_counter = s.out.length ∧
  ∀ i line, s.out.get? i = some line →
    ∃ o d l st, line = renderTrip (tName (i + 1)) o d l st

/-- A population file as seen by `process_population`: missing, malformed
XML (iterparse delivers a prefix of events and then raises), or
well-formed. -/
inductive PopFile
  | missing
  | malformed (preEvents : List XmlEvent)
  | wellFormed (events : List XmlEvent)
deriving DecidableEq

/-- The observable outcome of one `process_population` call. -/
inductive RunResult
  | noRun
  | openFailed
  | truncated (content : List String)
  | completed (content : List String)
deriving DecidableEq

/-- Embedding of the I/O behaviour of `process_population` (source lines
114-252): the guard returns before opening the output when the KD-tree
data is absent or the id list empty; a failing output open is caught by
the blanket handler; the root-open line is written before population
parsing starts, so a missing or malformed population file leaves a
truncated output; every exception is caught inside the function. -/
def process_population_run (node_kdtree : Option (List (ℚ × ℚ)))
    (node_id_map_list : List String) (links_map : LinksMap)
    (pop : PopFile) (outOk : Bool) : RunResult :=
  match node_kdtree with
  | none => .noRun
  | some pts =>
    if node_id_map_list = [] then .noRun
    else if outOk then
      match pop with
      | .missing => .truncated ["<scsimulator_matrix>\n"]
      | .malformed pre =>
        .truncated ("<scsimulator_matrix>\n" ::
          (runEvents ⟨pts, node_id_map_list, links_map⟩ pre).out)
      | .wellFormed evs =>
        .completed (("<scsimulator_matrix>\n" ::
          (runEvents ⟨pts, node_id_map_list, links_map⟩ evs).out) ++
          ["</scsimulator_matrix>\n"])
    else .openFailed

/-- Embedding of the `__main__` block (source lines 256-279): load the
network; on failure print a message and fall through; otherwise run
`process_population`, which handles its own errors. No path calls
`sys.exit`, so the script's exit status is 0 in every modeled scenario. -/
def mainExit (netF : NetFile) (pop : PopFile) (outOk : Bool) : Nat :=
  match load_network_data netF with
  | none => 0
  | some nd =>
    let _r := process_population_run (some nd.node_coords) nd.node_ids nd.links_map pop outOk
    0

/-- The fatal conditions claim C4 enumerates. -/
def fatalFailure (netF : NetFile) (pop : PopFile) (outOk : Bool) : Prop :=
  netF = .missing ∨ netF = .malformed ∨ load_network_data netF = none ∨
  pop = .missing ∨ (∃ pre, pop = .malformed pre) ∨ outOk = false

/-- If mapping Python `int` over a part list succeeds, lengths agree. -/
theorem mapIntParts_length :
    ∀ (l : List String) (r : List Int), mapIntParts l = some r → r.length = l.length := by
  intro l
  induction l with
  | nil => intro r h; simp [mapIntParts] at h; simp [← h]
  | cons a l ih =>
    intro r h
    simp only [mapIntParts] at h
    cases hf : pyInt? a with
    | none => rw [hf] at h; exact absurd h (by simp)
    | some b =>
      rw [hf] at h
      cases hl : mapIntParts l with
      | none => rw [hl] at h; exact absurd h (by simp)
      | some r' =>
        rw [hl] at h
        cases h
        simp [ih r' hl]

/-- Mapping Python `int` over a part list fails as soon as one part fails. -/
theorem mapIntParts_none :
    ∀ (l : List String), (∃ p ∈ l, pyInt? p = none) → mapIntParts l = none := by
  intro l
  induction l with
  | nil => intro h; rcases h with ⟨a, ha, _⟩; cases ha
  | cons a l ih =>
    intro h
    rcases h with ⟨b, hb, hfb⟩
    rcases List.mem_cons.mp hb with hba | hbl
    · subst hba; simp [mapIntParts, hfb]
    · simp only [mapIntParts]
      cases hf : pyInt? a with
      | none => rfl
      | some c => rw [ih ⟨b, hbl, hfb⟩]

/-- Claim C6: time-string conversion maps "08:15:00" to 29700, "08:15" to
29700 and "25:00:00" to 90000 (no range validation), and maps the empty
string, strings with other than two or three colon-separated parts, and
strings with a non-integer part to no value. -/
theorem c6_time_conversion :
    time_to_seconds (some ("08:15:00")) = some 29700 ∧
    time_to_seconds (some ("08:15")) = some 29700 ∧
    time_to_seconds (some ("25:00:00")) = some 90000 ∧
    time_to_seconds (some ("")) = none ∧
    (∀ s : String, (pySplit s ':').length ≠ 2 → (pySplit s ':').length ≠ 3 →
      time_to_seconds (some s) = none) ∧
    (∀ s : String, (∃ p ∈ pySplit s ':', pyInt? p = none) →
      time_to_seconds (some s) = none) := by
  refine ⟨by decide, by decide, by decide, by decide, ?_, ?_⟩
  · intro s h2 h3
    by_cases hs : s.isEmpty
    · simp [time_to_seconds, hs]
    · simp only [time_to_seconds, hs, if_false]
      cases hm : mapIntParts (pySplit s ':') with
      | none => rfl
      | some parts =>
        have hlen := mapIntParts_length _ _ hm
        match parts, hlen with
        | [], _ => rfl
        | [a], _ => rfl
        | [a, b], hlen => exact absurd hlen.symm h2
        | [a, b, c], hlen => exact absurd hlen.symm h3
        | a :: b :: c :: d :: rest, _ => rfl
  · intro s hex
    by_cases hs : s.isEmpty
    · simp [time_to_seconds, hs]
    · simp [time_to_seconds, hs, mapIntParts_none _ hex]

/-- Claim C6 witness: the general clauses applied at "1:2:3:4" (four
parts) and "aa:07" (non-integer first part). -/
theorem c6_time_conversion_witness :
    time_to_seconds (some ("1:2:3:4")) = none ∧
    time_to_seconds (some ("aa:07")) = none := by
  constructor
  · exact c6_time_conversion.2.2.2.2.1 ("1:2:3:4") (by decide) (by decide)
  · exact c6_time_conversion.2.2.2.2.2 ("aa:07") ⟨("aa"), by decide, by decide⟩

theorem lookupLinks_addLink (m : LinksMap) (k : String) (e : LinkEntry) (key : String) :
    lookupLinks (addLink m k e) key =
      if k = key then lookupLinks m key ++ [e] else lookupLinks m key := by
  induction m with
  | nil =>
    by_cases h : k = key <;> simp [addLink, lookupLinks, h]
  | cons p rest ih =>
    obtain ⟨k', es⟩ := p
    by_cases h1 : k' = k
    · subst h1
      by_cases h2 : k' = key <;> simp [addLink, lookupLinks, h2]
    · by_cases h2 : k' = key
      · subst h2
        have hk : ¬ k = k' := fun h => h1 h.symm
        simp [addLink, h1, lookupLinks, hk, ih]
      · simp [addLink, h1, lookupLinks, h2, ih]

theorem lookupLinks_buildLinksMap_aux (node : String) :
    ∀ (links : List LinkRec) (m : LinksMap),
      lookupLinks
          (links.foldl
            (fun m l => if linkValid l then addLink m (l.frm.getD ("")) (linkEntryOf l) else m)
            m) node =
        lookupLinks m node ++
          (links.filter (fun l => linkValid l && l.frm = some node)).map linkEntryOf := by
  intro links
  induction links with
  | nil => intro m; simp
  | cons l rest ih =>
    intro m
    by_cases hv : linkValid l
    · have hfs : ∃ v, l.frm = some v := by
        cases hfrm : l.frm with
        | none =>
          exfalso
          unfold linkValid at hv
          rw [hfrm] at hv
          simp [pyTruthy] at hv
        | some v => exact ⟨v, rfl⟩
      obtain ⟨v, hfrm⟩ := hfs
      have hget : l.frm.getD ("") = v := by rw [hfrm]; rfl
      by_cases hveq : v = node
      · subst hveq
        simp only [List.foldl_cons, hv, if_true, List.filter_cons]
        rw [ih, lookupLinks_addLink, hget]
        simp [hv, hfrm]
      · have hf : ¬ (l.frm = some node) := by rw [hfrm]; simp [hveq]
        simp only [List.foldl_cons, hv, if_true, List.filter_cons]
        rw [ih, lookupLinks_addLink, hget]
        simp [hveq, hv, hf]
    · simp only [List.foldl_cons, hv, if_false, List.filter_cons]
      rw [ih]
      simp [hv]

/-- Claim C7: for every node id, `find_outgoing_link` returns the id of
the first link registered during network load whose `from` attribute
equals that node id, and the sentinel "UNKNOWN_LINK" when no registered
link originates there. -/
theorem c7_first_outgoing_link (node : String) (links : List LinkRec) :
    find_outgoing_link node (buildLinksMap links) = firstOutgoingSpec node links := by
  unfold find_outgoing_link buildLinksMap firstOutgoingSpec
  rw [lookupLinks_buildLinksMap_aux]
  simp only [lookupLinks, List.nil_append]
  cases links.filter (fun l => linkValid l && l.frm = some node) with
  | nil => rfl
  | cons l rest => rfl

theorem sqDist_nonneg (a b : ℚ × ℚ) : 0 ≤ sqDist a b := by
  unfold sqDist
  positivity

theorem sqDist_self (a : ℚ × ℚ) : sqDist a a = 0 := by
  simp [sqDist]

theorem sqDist_pos {a b : ℚ × ℚ} (h : b ≠ a) : 0 < sqDist a b := by
  rcases lt_or_eq_of_le (sqDist_nonneg a b) with hlt | heq
  · exact hlt
  · exfalso
    apply h
    unfold sqDist at heq
    have h1 : (a.1 - b.1) ^ 2 = 0 ∧ (a.2 - b.2) ^ 2 = 0 := by
      constructor <;> nlinarith [sq_nonneg (a.1 - b.1), sq_nonneg (a.2 - b.2)]
    have e1 : b.1 = a.1 := by
      have := pow_eq_zero_iff (n := 2) (by norm_num) |>.mp h1.1
      linarith [sub_eq_zero.mp this]
    have e2 : b.2 = a.2 := by
      have := pow_eq_zero_iff (n := 2) (by norm_num) |>.mp h1.2
      linarith [sub_eq_zero.mp this]
    exact Prod.ext e1 e2

/-- Once the best distance is zero it is never displaced. -/
theorem nearestAux_zero (q : ℚ × ℚ) :
    ∀ (rest : List (ℚ × ℚ)) (k bi : Nat), nearestAux q rest k (bi, 0) = (bi, 0) := by
  intro rest
  induction rest with
  | nil => intro k bi; rfl
  | cons p rest ih =>
    intro k bi
    have : ¬ (sqDist q p < (0 : ℚ)) := not_lt.mpr (sqDist_nonneg q p)
    simp only [nearestAux, this, if_false]
    exact ih (k + 1) bi

/-- Scanning a list that contains the query point itself, with every
element before it distinct from it and a positive incumbent distance,
lands exactly on the query point's position. -/
theorem nearestAux_finds (q : ℚ × ℚ) :
    ∀ (pre post : List (ℚ × ℚ)) (k bi : Nat) (bd : ℚ), 0 < bd →
      (∀ p ∈ pre, p ≠ q) →
      nearestAux q (pre ++ q :: post) k (bi, bd) = (k + pre.length, 0) := by
  intro pre
  induction pre with
  | nil =>
    intro post k bi bd hbd _
    simp only [List.nil_append, nearestAux, sqDist_self]
    rw [if_pos hbd, nearestAux_zero]
    simp
  | cons p pre ih =>
    intro post k bi bd hbd hpre
    have hp : p ≠ q := hpre p (List.mem_cons_self p pre)
    have hpos : 0 < sqDist q p := sqDist_pos hp
    have hrest : ∀ r ∈ pre, r ≠ q := fun r hr => hpre r (List.mem_cons_of_mem p hr)
    have harith : k + 1 + pre.length = k + (p :: pre).length := by
      simp only [List.length_cons]
      omega
    simp only [List.cons_append, nearestAux, List.append_eq]
    by_cases himp : sqDist q p < bd
    · simp only [himp, if_true]
      rw [ih post (k + 1) k (sqDist q p) hpos hrest, harith]
    · simp only [himp, if_false]
      rw [ih post (k + 1) bi bd hbd hrest, harith]

/-- An index that resolves with `get?` is in range. -/
theorem get?_some_lt {α : Type} :
    ∀ (l : List α) (i : Nat) (a : α), l.get? i = some a → i < l.length := by
  intro l
  induction l with
  | nil => intro i a h; simp [List.get?] at h
  | cons x xs ih =>
    intro i a h
    cases i with
    | zero => simp
    | succ n =>
      have := ih n a (by simpa [List.get?] using h)
      simp [List.length_cons]
      omega

/-- Splitting a list at a position that resolves with `get?`. -/
theorem take_cons_drop {α : Type} :
    ∀ (l : List α) (i : Nat) (a : α), l.get? i = some a →
      l.take i ++ a :: l.drop (i + 1) = l := by
  intro l
  induction l with
  | nil => intro i a h; simp [List.get?] at h
  | cons x xs ih =>
    intro i a h
    cases i with
    | zero =>
      simp [List.get?] at h
      subst h
      simp
    | succ n =>
      have := ih n a (by simpa [List.get?] using h)
      simp only [List.take_succ_cons, List.drop_succ_cons, List.cons_append, this]

/-- Every element of `l.take i` sits at an index below `i`. -/
theorem mem_take_get? {α : Type} :
    ∀ (l : List α) (i : Nat) (p : α), p ∈ l.take i →
      ∃ j, j < i ∧ l.get? j = some p := by
  intro l
  induction l with
  | nil => intro i p h; simp at h
  | cons x xs ih =>
    intro i p h
    cases i with
    | zero => simp at h
    | succ n =>
      rw [List.take_succ_cons] at h
      rcases List.mem_cons.mp h with hx | hxs
      · exact ⟨0, Nat.succ_pos n, by simp [List.get?, hx]⟩
      · obtain ⟨j, hj, hg⟩ := ih n p hxs
        exact ⟨j + 1, by omega, by simpa [List.get?] using hg⟩

/-- The argmin lands on an exact occurrence of the query point when every
earlier point differs from it. -/
theorem nearestIdx_decomp (q : ℚ × ℚ) (pre post : List (ℚ × ℚ))
    (hpre : ∀ p ∈ pre, p ≠ q) :
    nearestIdx (pre ++ q :: post) q = pre.length := by
  cases pre with
  | nil =>
    simp only [List.nil_append, nearestIdx, sqDist_self]
    rw [nearestAux_zero]
    rfl
  | cons p0 pre' =>
    have hp0 : p0 ≠ q := hpre p0 (List.mem_cons_self p0 pre')
    have hpre' : ∀ p ∈ pre', p ≠ q := fun p hp => hpre p (List.mem_cons_of_mem p0 hp)
    simp only [List.cons_append, nearestIdx, List.append_eq]
    rw [nearestAux_finds q pre' post 1 0 (sqDist q p0) (sqDist_pos hp0) hpre']
    simp [List.length_cons]
    omega

/-- The argmin index on a point list containing the query exactly once
(up to later duplicates) is the query's own index. -/
theorem nearestIdx_of_unique (pts : List (ℚ × ℚ)) (q : ℚ × ℚ) (i : Nat)
    (hi : pts.get? i = some q)
    (huniq : ∀ j p, j ≠ i → pts.get? j = some p → p ≠ q) :
    nearestIdx pts q = i := by
  have hdecomp := take_cons_drop pts i q hi
  have hlt : i < pts.length := get?_some_lt pts i q hi
  have hlen : (pts.take i).length = i := by
    rw [List.length_take]
    omega
  have hpre : ∀ p ∈ pts.take i, p ≠ q := by
    intro p hp
    obtain ⟨j, hj, hg⟩ := mem_take_get? pts i p hp
    exact huniq j p (by omega) hg
  calc nearestIdx pts q
      = nearestIdx (pts.take i ++ q :: pts.drop (i + 1)) q := by rw [hdecomp]
    _ = (pts.take i).length := nearestIdx_decomp q _ _ hpre
    _ = i := hlen

/-- The running best index stays below the bound while scanning. -/
theorem nearestAux_lt (q : ℚ × ℚ) :
    ∀ (rest : List (ℚ × ℚ)) (k bi : Nat) (bd : ℚ), bi < k →
      (nearestAux q rest k (bi, bd)).1 < k + rest.length := by
  intro rest
  induction rest with
  | nil => intro k bi bd h; simpa [nearestAux] using h
  | cons p rest ih =>
    intro k bi bd h
    simp only [nearestAux, List.length_cons]
    by_cases himp : sqDist q p < bd
    · simp only [himp, if_true]
      have := ih (k + 1) k (sqDist q p) (by omega)
      omega
    · simp only [himp, if_false]
      have := ih (k + 1) bi bd (by omega)
      omega

/-- On a nonempty point list the argmin index is in range. -/
theorem nearestIdx_lt (pts : List (ℚ × ℚ)) (q : ℚ × ℚ) (h : pts ≠ []) :
    nearestIdx pts q < pts.length := by
  cases pts with
  | nil => exact absurd rfl h
  | cons p rest =>
    simp only [nearestIdx, List.length_cons]
    have := nearestAux_lt q rest 1 0 (sqDist q p) (by omega)
    omega

/-- Claim C8: querying the nearest-node lookup with the exact coordinates
of a loaded node returns that node's id whenever no other loaded node
shares the coordinates; repeated identical calls return that same id. -/
theorem c8_nearest_roundtrip (f : NetFile) (nd : NetworkData) (i : Nat)
    (nid : String) (x y : ℚ)
    (hload : load_network_data f = some nd)
    (hid : nd.node_ids.get? i = some nid)
    (hcoord : nd.node_coords.get? i = some (x, y))
    (huniq : ∀ j p, j ≠ i → nd.node_coords.get? j = some p → p ≠ (x, y)) :
    find_closest_node_kdtree x y (some nd.node_coords) nd.node_ids = some nid := by
  simp only [find_closest_node_kdtree]
  rw [nearestIdx_of_unique nd.node_coords (x, y) i hcoord huniq]
  exact hid

/-- Claim C8 witness: in the two-node network, querying with node n1's
exact coordinates returns "n1". -/
theorem c8_nearest_roundtrip_witness :
    load_network_data netFileC = some netC ∧
    find_closest_node_kdtree 0 0 (some netC.node_coords) netC.node_ids = some ("n1") := by
  constructor
  · with_unfolding_all decide
  · refine c8_nearest_roundtrip netFileC netC 0 ("n1") 0 0 (by with_unfolding_all decide)
      (by decide) (by decide) ?_
    intro j p hj hg
    cases j with
    | zero => exact absurd rfl hj
    | succ n =>
      cases n with
      | zero =>
        simp only [netC, List.get?] at hg
        cases hg
        decide
      | succ m => simp [netC, List.get?] at hg

/-- Claim C9: a trip record is produced by direct string interpolation
with no XML escaping — the origin, destination and link_origin id strings
appear verbatim (as contiguous character runs) in the emitted line, so a
quote, '<' or '&' inside an id ends up unescaped in the output. -/
theorem c9_no_escaping (name origin destination link_origin : String) (start : Int) :
    origin.data <:+: (renderTrip name origin destination link_origin start).data ∧
    destination.data <:+: (renderTrip name origin destination link_origin start).data ∧
    link_origin.data <:+: (renderTrip name origin destination link_origin start).data := by
  refine ⟨?_, ?_, ?_⟩
  · have h : (renderTrip name origin destination link_origin start).data =
        ("  <trip name=\"" ++ name ++ "\" origin=\"").data ++ origin.data ++
          ("\" destination=\"" ++ destination ++ "\" link_origin=\"" ++ link_origin ++
            "\" count=\"1\" start=\"" ++ toString start ++
            "\" mode=\"car\" digital_rails_capable=\"false\"/>\n").data := by
      simp [renderTrip, List.append_assoc]
    rw [h]
    exact List.infix_append _ _ _
  · have h : (renderTrip name origin destination link_origin start).data =
        ("  <trip name=\"" ++ name ++ "\" origin=\"" ++ origin ++
            "\" destination=\"").data ++ destination.data ++
          ("\" link_origin=\"" ++ link_origin ++ "\" count=\"1\" start=\"" ++
            toString start ++ "\" mode=\"car\" digital_rails_capable=\"false\"/>\n").data := by
      simp [renderTrip, List.append_assoc]
    rw [h]
    exact List.infix_append _ _ _
  · have h : (renderTrip name origin destination link_origin start).data =
        ("  <trip name=\"" ++ name ++ "\" origin=\"" ++ origin ++ "\" destination=\"" ++
            destination ++ "\" link_origin=\"").data ++ link_origin.data ++
          ("\" count=\"1\" start=\"" ++ toString start ++
            "\" mode=\"car\" digital_rails_capable=\"false\"/>\n").data := by
      simp [renderTrip, List.append_assoc]
    rw [h]
    exact List.infix_append _ _ _

/-- Claim C2 counterexample: in the two-node network, a selected plan
whose car leg carries the present-but-unparseable `dep_time` "xx" while
the preceding activity's `end_time` "07:00:00" is parseable produces NO
trip — the code only falls back to `end_time` when `dep_time` is falsy,
not when it fails to parse. -/
theorem c2_dep_time_counterexample :
    pyTruthy (some ("xx")) = true ∧
    time_to_seconds (some ("xx")) = none ∧
    time_to_seconds (some ("07:00:00")) = some 25200 ∧
    (runEvents netC
      [.startPerson (some ("p1")), .startPlan (some ("yes")),
       .startOther, .endActivity (some ("0")) (some ("0")) (some ("07:00:00")) none,
       .startOther, .endLeg (some ("car")) (some ("xx")),
       .startOther, .endActivity (some ("10")) (some ("10")) none none,
       .endPlan, .endPerson]).out = [] := by
  refine ⟨by decide, by decide, by decide, ?_⟩
  with_unfolding_all decide

/-- Claim C2, amended: the start time is `dep_time` converted to seconds
when `dep_time` is truthy (present and nonempty), regardless of whether
it parses; only a falsy `dep_time` falls back to the activity's
`end_time`; the leg is skipped exactly when the selected string fails to
convert — so a nonempty unparseable `dep_time` skips the leg even when
`end_time` would parse, and any emitted trip carries the selected
start value. -/
theorem c2_start_time_rule (net : NetworkData) (c : Nat) (abd afd : ActivityDetails)
    (dep : Option String) :
    (pyTruthy dep = true → legStart dep abd.end_time = time_to_seconds dep) ∧
    (pyTruthy dep = false → legStart dep abd.end_time = time_to_seconds abd.end_time) ∧
    (legStart dep abd.end_time = none →
      scanEmit net none c [.activity abd, .leg (some ("car")) dep, .activity afd] = ([], c)) ∧
    (∀ st : Int, legStart dep abd.end_time = some st →
      ∀ line ∈ (scanEmit net none c
          [.activity abd, .leg (some ("car")) dep, .activity afd]).1,
        ∃ o d l, line = renderTrip (tName (c + 1)) o d l st) := by
  refine ⟨fun h => by simp [legStart, h], fun h => by simp [legStart, h], ?_, ?_⟩
  · intro hnone
    simp only [scanEmit, if_pos rfl]
    have hlt : legTrip net c abd afd dep = none := by
      unfold legTrip
      cases habd : abd.coords with
      | none => rfl
      | some ab =>
        cases afd.coords with
        | none => rfl
        | some af => simp [hnone]
    simp [hlt, scanEmit]
  · intro st hst line hline
    simp only [scanEmit, if_pos rfl] at hline
    cases hlt : legTrip net c abd afd dep with
    | none => simp [hlt, scanEmit] at hline
    | some l0 =>
      simp [hlt, scanEmit] at hline
      subst hline
      unfold legTrip at hlt
      cases habd : abd.coords with
      | none => rw [habd] at hlt; cases hlt
      | some ab =>
        cases hafd : afd.coords with
        | none => rw [habd, hafd] at hlt; cases hlt
        | some af =>
          simp only [habd, hafd, hst] at hlt
          cases ho : find_closest_node_kdtree ab.1 ab.2 (some net.node_coords) net.node_ids with
          | none => simp [ho] at hlt
          | some o =>
            cases hd : find_closest_node_kdtree af.1 af.2 (some net.node_coords) net.node_ids with
            | none => simp [ho, hd] at hlt
            | some d =>
              simp only [ho, hd] at hlt
              by_cases hne : (!o.isEmpty && !d.isEmpty) = true
              · rw [if_pos hne] at hlt
                cases hlt
                exact ⟨o, d, find_outgoing_link o net.links_map, rfl⟩
              · rw [if_neg hne] at hlt
                cases hlt

/-- Claim C2 witness: the amended rule applied at concrete inputs — a
truthy `dep_time` wins, a falsy one falls back, an unparseable truthy one
skips the leg, and the emitted trip of a fallback run carries start
25200 from the activity's end_time. -/
theorem c2_start_time_rule_witness :
    legStart (some ("08:00:00")) (some ("07:00:00")) = time_to_seconds (some ("08:00:00")) ∧
    legStart none abdC.end_time = time_to_seconds (some ("07:00:00")) ∧
    scanEmit netC none 0 [.activity abdC, .leg (some ("car")) (some ("xx")), .activity afdC]
      = ([], 0) ∧
    (∃ o d l, renderTrip (tName 1) ("n1") ("n2") ("l1") 25200
      = renderTrip (tName (0 + 1)) o d l 25200) := by
  have habd : abdC.end_time = some ("07:00:00") := by decide
  refine ⟨?_, ?_, ?_, ?_⟩
  · exact (c2_start_time_rule netC 0 abdC afdC (some ("08:00:00"))).1 (by decide)
  · rw [← habd]
    exact (c2_start_time_rule netC 0 abdC afdC none).2.1 (by decide)
  · exact (c2_start_time_rule netC 0 abdC afdC (some ("xx"))).2.2.1 (by decide)
  · exact (c2_start_time_rule netC 0 abdC afdC none).2.2.2 25200 (by decide)
      (renderTrip (tName 1) ("n1") ("n2") ("l1") 25200) (by with_unfolding_all decide)

/-- Claim C3 counterexample: in an event stream where a person element
ends while its selected plan is still open, the selection flag and the
accumulated items survive the person end — there is no defensive reset
on the agent boundary. -/
theorem c3_reset_counterexample :
    (runEvents netC
      [.startPerson (some ("p1")), .startPlan (some ("yes")),
       .startOther, .endActivity (some ("0")) (some ("0")) (some ("07:00:00")) none,
       .endPerson]).is_selected_plan = true ∧
    (runEvents netC
      [.startPerson (some ("p1")), .startPlan (some ("yes")),
       .startOther, .endActivity (some ("0")) (some ("0")) (some ("07:00:00")) none,
       .endPerson]).plan_items ≠ [] := by
  constructor
  · with_unfolding_all decide
  · with_unfolding_all decide

/-- Claim C3, amended: at the end of a plan element processed while a
current agent id is set, the selection flag and the item buffer are reset
(the agent id itself is preserved); a plan end without a current agent id
changes nothing; at the end of a person element only the agent id is
reset — the selection flag and the item buffer are left untouched, so
they can carry across an agent boundary in a malformed stream. -/
theorem c3_reset_behaviour (net : NetworkData) (s : PState) :
    (s.current_person_id.isSome = true →
      (step net s .endPlan).is_selected_plan = false ∧
      (step net s .endPlan).plan_items = [] ∧
      (step net s .endPlan).current_person_id = s.current_person_id) ∧
    (s.current_person_id.isSome = false → step net s .endPlan = s) ∧
    ((step net s .endPerson).current_person_id = none ∧
     (step net s .endPerson).is_selected_plan = s.is_selected_plan ∧
     (step net s .endPerson).plan_items = s.plan_items) := by
  refine ⟨fun h => ?_, fun h => ?_, ?_⟩
  · simp [step, h]
  · simp [step, h]
  · simp [step]

/-- Claim C3 witness: the amended behaviour at a concrete dirty state
with an agent in progress, and at one without. -/
theorem c3_reset_behaviour_witness :
    ((step netC ⟨5, 3, some ("p"), true, [.leg none none], ["x"]⟩ .endPlan).is_selected_plan = false ∧
     (step netC ⟨5, 3, some ("p"), true, [.leg none none], ["x"]⟩ .endPlan).plan_items = [] ∧
     (step netC ⟨5, 3, some ("p"), true, [.leg none none], ["x"]⟩ .endPlan).current_person_id
       = some ("p")) ∧
    step netC ⟨5, 3, none, true, [.leg none none], ["x"]⟩ .endPlan
      = ⟨5, 3, none, true, [.leg none none], ["x"]⟩ ∧
    (step netC ⟨5, 3, some ("p"), true, [.leg none none], ["x"]⟩ .endPerson).current_person_id
      = none := by
  refine ⟨(c3_reset_behaviour netC _).1 (by decide), ?_, ?_⟩
  · exact (c3_reset_behaviour netC ⟨5, 3, none, true, [.leg none none], ["x"]⟩).2.1 (by decide)
  · exact ((c3_reset_behaviour netC ⟨5, 3, some ("p"), true, [.leg none none], ["x"]⟩).2.2).1

theorem loadNodes_fold_invariant :
    ∀ (nodes : List NodeRec) (acc : List (ℚ × ℚ) × List String),
      acc.1.length = acc.2.length →
      (∀ nid ∈ acc.2, nid.isEmpty = false) →
      (nodes.foldl loadNodeStep acc).1.length = (nodes.foldl loadNodeStep acc).2.length ∧
      ∀ nid ∈ (nodes.foldl loadNodeStep acc).2, nid.isEmpty = false := by
  intro nodes
  induction nodes with
  | nil => intro acc h1 h2; exact ⟨h1, h2⟩
  | cons n rest ih =>
    intro acc h1 h2
    simp only [List.foldl_cons]
    apply ih
    · unfold loadNodeStep
      by_cases hc : pyTruthy n.id ∧ n.x.isSome ∧ n.y.isSome
      · simp only [hc, if_true]
        cases pyFloat? (n.x.getD ("")) with
        | none => exact h1
        | some cx =>
          cases pyFloat? (n.y.getD ("")) with
          | none => exact h1
          | some cy => simp [h1]
      · simp only [hc, if_false]
        exact h1
    · unfold loadNodeStep
      by_cases hc : pyTruthy n.id ∧ n.x.isSome ∧ n.y.isSome
      · simp only [hc, if_true]
        cases pyFloat? (n.x.getD ("")) with
        | none => exact h2
        | some cx =>
          cases pyFloat? (n.y.getD ("")) with
          | none => exact h2
          | some cy =>
            intro nid hnid
            rcases List.mem_append.mp hnid with hm | hm
            · exact h2 nid hm
            · have hid : pyTruthy n.id = true := hc.1
              cases hni : n.id with
              | none => rw [hni] at hid; exact absurd hid (by simp [pyTruthy])
              | some v =>
                rw [hni] at hid
                simp only [pyTruthy, Bool.not_eq_true'] at hid
                simp only [List.mem_singleton] at hm
                subst hm
                rw [hni]
                simpa using hid
      · simp only [hc, if_false]
        exact h2

/-- A successful load satisfies the data invariant. -/
theorem load_network_data_inv (f : NetFile) (nd : NetworkData)
    (h : load_network_data f = some nd) : loadInv nd := by
  cases f with
  | missing => cases h
  | malformed => cases h
  | ok nodes links =>
    simp only [load_network_data] at h
    by_cases he : (loadNodes nodes).1 = []
    · rw [if_pos he] at h
      cases h
    · rw [if_neg he] at h
      cases h
      have := loadNodes_fold_invariant nodes ([], []) rfl (by intro nid h; cases h)
      exact ⟨he, this.1, this.2⟩

/-- Under the load invariant every query resolves to a truthy node id. -/
theorem resolve_some (nd : NetworkData) (h : loadInv nd) (x y : ℚ) :
    ∃ nid, find_closest_node_kdtree x y (some nd.node_coords) nd.node_ids = some nid ∧
      nid.isEmpty = false := by
  obtain ⟨hne, hlen, hids⟩ := h
  have hidx : nearestIdx nd.node_coords (x, y) < nd.node_ids.length := by
    rw [← hlen]
    exact nearestIdx_lt nd.node_coords (x, y) hne
  refine ⟨nd.node_ids.get ⟨nearestIdx nd.node_coords (x, y), hidx⟩, ?_, ?_⟩
  · simp only [find_closest_node_kdtree]
    exact List.get?_eq_get hidx
  · exact hids _ (List.get_mem nd.node_ids _ hidx)

/-- Under the load invariant, a car-leg body emits a line exactly when
both coordinate pairs are present and the start time converts. -/
theorem legTrip_isSome_iff (net : NetworkData) (hinv : loadInv net) (c : Nat)
    (abd afd : ActivityDetails) (dep : Option String) :
    (legTrip net c abd afd dep).isSome =
      (abd.coords.isSome && afd.coords.isSome && (legStart dep abd.end_time).isSome) := by
  unfold legTrip
  cases habd : abd.coords with
  | none => simp
  | some ab =>
    cases hafd : afd.coords with
    | none => simp
    | some af =>
      cases hst : legStart dep abd.end_time with
      | none => simp
      | some st =>
        obtain ⟨o, ho, hoe⟩ := resolve_some net hinv ab.1 ab.2
        obtain ⟨d, hd, hde⟩ := resolve_some net hinv af.1 af.2
        simp [ho, hd, hoe, hde]

/-- Any line the car-leg body emits is a trip record numbered `c + 1`. -/
theorem legTrip_shape (net : NetworkData) (c : Nat) (abd afd : ActivityDetails)
    (dep : Option String) (line : String) (h : legTrip net c abd afd dep = some line) :
    ∃ o d l st, line = renderTrip (tName (c + 1)) o d l st := by
  unfold legTrip at h
  cases habd : abd.coords with
  | none => rw [habd] at h; cases h
  | some ab =>
    cases hafd : afd.coords with
    | none => rw [habd, hafd] at h; cases h
    | some af =>
      cases hst : legStart dep abd.end_time with
      | none => simp [habd, hafd, hst] at h
      | some st =>
        simp only [habd, hafd, hst] at h
        cases ho : find_closest_node_kdtree ab.1 ab.2 (some net.node_coords) net.node_ids with
        | none => simp [ho] at h
        | some o =>
          cases hd : find_closest_node_kdtree af.1 af.2 (some net.node_coords) net.node_ids with
          | none => simp [ho, hd] at h
          | some d =>
            simp only [ho, hd] at h
            by_cases hne : (!o.isEmpty && !d.isEmpty) = true
            · rw [if_pos hne] at h
              cases h
              exact ⟨o, d, find_outgoing_link o net.links_map, st, rfl⟩
            · rw [if_neg hne] at h
              cases h

/-- The counter returned by the plan scan is the incoming counter plus
the number of emitted lines. -/
theorem scanEmit_counter (net : NetworkData) :
    ∀ (items : List PlanItem) (ab : Option ActivityDetails) (c : Nat),
      (scanEmit net ab c items).2 = c + (scanEmit net ab c items).1.length := by
  intro items
  induction items with
  | nil => intro ab c; simp [scanEmit]
  | cons item rest ih =>
    intro ab c
    cases item with
    | activity d => simpa [scanEmit] using ih (some d) c
    | leg mode dep =>
      cases ab with
      | none => simpa [scanEmit] using ih none c
      | some abd =>
        simp only [scanEmit]
        by_cases hm : mode = some ("car")
        · rw [if_pos hm]
          cases rest with
          | nil => simpa using ih (some abd) c
          | cons item2 rest2 =>
            cases item2 with
            | activity afd =>
              cases hlt : legTrip net c abd afd dep with
              | none =>
                simp only [hlt]
                exact ih (some abd) c
              | some line =>
                simp only [hlt, List.length_cons]
                have := ih (some abd) (c + 1)
                omega
            | leg m2 d2 => simpa using ih (some abd) c
        · rw [if_neg hm]
          exact ih (some abd) c

/-- Under the load invariant the plan scan emits exactly one line per
qualifying car leg. -/
theorem scanEmit_length (net : NetworkData) (hinv : loadInv net) :
    ∀ (items : List PlanItem) (ab : Option ActivityDetails) (c : Nat),
      (scanEmit net ab c items).1.length = qualCountSpec ab items := by
  intro items
  induction items with
  | nil => intro ab c; simp [scanEmit, qualCountSpec]
  | cons item rest ih =>
    intro ab c
    cases item with
    | activity d =>
      simpa [scanEmit, qualCountSpec] using ih (some d) c
    | leg mode dep =>
      cases ab with
      | none => simpa [scanEmit, qualCountSpec] using ih none c
      | some abd =>
        simp only [scanEmit, qualCountSpec]
        by_cases hm : mode = some ("car")
        · rw [if_pos hm]
          cases rest with
          | nil => simpa [qualCountSpec] using ih (some abd) c
          | cons item2 rest2 =>
            cases item2 with
            | activity afd =>
              have hiff := legTrip_isSome_iff net hinv c abd afd dep
              cases hlt : legTrip net c abd afd dep with
              | none =>
                rw [hlt] at hiff
                simp only [Option.isSome_none] at hiff
                have hcond : ¬ (mode = some ("car") ∧ abd.coords.isSome = true ∧
                    afd.coords.isSome = true ∧
                    (legStart dep abd.end_time).isSome = true) := by
                  rintro ⟨-, hA, hB, hC⟩
                  rw [hA, hB, hC] at hiff
                  simp at hiff
                dsimp only
                simp only [hlt]
                rw [if_neg hcond, ih (some abd) c]
                omega
              | some line =>
                rw [hlt] at hiff
                simp only [Option.isSome_some] at hiff
                have habc := (Bool.and_eq_true_iff.mp hiff.symm)
                have hab := Bool.and_eq_true_iff.mp habc.1
                have hcond : mode = some ("car") ∧ abd.coords.isSome = true ∧
                    afd.coords.isSome = true ∧
                    (legStart dep abd.end_time).isSome = true :=
                  ⟨hm, hab.1, hab.2, habc.2⟩
                dsimp only
                simp only [hlt, List.length_cons]
                rw [if_pos hcond, ih (some abd) (c + 1)]
                omega
            | leg m2 d2 =>
              simpa [qualCountSpec] using ih (some abd) c
        · rw [if_neg hm]
          cases rest with
          | nil => simpa [qualCountSpec] using ih (some abd) c
          | cons item2 rest2 =>
            cases item2 with
            | activity afd =>
              have hcond : ¬ (mode = some ("car") ∧ abd.coords.isSome = true ∧
                  afd.coords.isSome = true ∧
                  (legStart dep abd.end_time).isSome = true) := fun hc => hm hc.1
              dsimp only
              rw [if_neg hcond, ih (some abd) c]
              omega
            | leg m2 d2 =>
              simpa [qualCountSpec] using ih (some abd) c

/-- The `j`-th line the plan scan emits (counter starting at `c`) is a
trip record named `t(c+j+1)`. -/
theorem scanEmit_names (net : NetworkData) :
    ∀ (items : List PlanItem) (ab : Option ActivityDetails) (c j : Nat) (line : String),
      (scanEmit net ab c items).1.get? j = some line →
      ∃ o d l st, line = renderTrip (tName (c + j + 1)) o d l st := by
  intro items
  induction items with
  | nil => intro ab c j line h; simp [scanEmit, List.get?] at h
  | cons item rest ih =>
    intro ab c j line h
    cases item with
    | activity d =>
      simp only [scanEmit] at h
      exact ih (some d) c j line h
    | leg mode dep =>
      cases ab with
      | none =>
        simp only [scanEmit] at h
        exact ih none c j line h
      | some abd =>
        simp only [scanEmit] at h
        by_cases hm : mode = some ("car")
        · rw [if_pos hm] at h
          cases rest with
          | nil =>
            exact ih (some abd) c j line (by simpa using h)
          | cons item2 rest2 =>
            cases item2 with
            | activity afd =>
              cases hlt : legTrip net c abd afd dep with
              | none =>
                dsimp only at h
                simp only [hlt] at h
                exact ih (some abd) c j line h
              | some line0 =>
                dsimp only at h
                simp only [hlt] at h
                cases j with
                | zero =>
                  simp only [List.get?, Option.some.injEq] at h
                  subst h
                  obtain ⟨o, d, l, st, hshape⟩ :=
                    legTrip_shape net c abd afd dep line0 hlt
                  exact ⟨o, d, l, st, by simpa using hshape⟩
                | succ j' =>
                  simp only [List.get?] at h
                  obtain ⟨o, d, l, st, hshape⟩ := ih (some abd) (c + 1) j' line h
                  refine ⟨o, d, l, st, ?_⟩
                  rw [hshape]
                  have : c + 1 + j' + 1 = c + (j' + 1) + 1 := by omega
                  rw [this]
            | leg m2 d2 =>
              dsimp only at h
              exact ih (some abd) c j line h
        · rw [if_neg hm] at h
          exact ih (some abd) c j line h

theorem runFrom_cons (net : NetworkData) (s : PState) (e : XmlEvent) (es : List XmlEvent) :
    runFrom net s (e :: es) = runFrom net (step net s e) es := rfl

theorem runFrom_append (net : NetworkData) (s : PState) (es1 es2 : List XmlEvent) :
    runFrom net s (es1 ++ es2) = runFrom net (runFrom net s es1) es2 :=
  List.foldl_append _ _ _ _

/-- While the selected-plan flag is set, the events of raw plan children
append exactly their parsed items. -/
theorem runItems_selected (net : NetworkData) :
    ∀ (raws : List RawItem) (s : PState), s.is_selected_plan = true →
      runFrom net s (raws.flatMap itemEvents) =
        { s with plan_items := s.plan_items ++ raws.map parseItem } := by
  intro raws
  induction raws with
  | nil => intro s hsel; simp [runFrom]
  | cons r raws ih =>
    intro s hsel
    rw [List.flatMap_cons, runFrom_append]
    cases r with
    | activity x y et ty =>
      have h1 : runFrom net s (itemEvents (.activity x y et ty)) =
          { s with plan_items :=
              s.plan_items ++ [.activity (parseActivityDetails x y et ty)] } := by
        simp [runFrom, itemEvents, step, hsel]
      rw [h1, ih _ (by simp [hsel])]
      simp [parseItem]
    | leg mode dep =>
      have h1 : runFrom net s (itemEvents (.leg mode dep)) =
          { s with plan_items := s.plan_items ++ [.leg mode dep] } := by
        simp [runFrom, itemEvents, step, hsel]
      rw [h1, ih _ (by simp [hsel])]
      simp [parseItem]

/-- While the selected-plan flag is clear, the events of raw plan
children change nothing. -/
theorem runItems_unselected (net : NetworkData) :
    ∀ (raws : List RawItem) (s : PState), s.is_selected_plan = false →
      runFrom net s (raws.flatMap itemEvents) = s := by
  intro raws
  induction raws with
  | nil => intro s hsel; simp [runFrom]
  | cons r raws ih =>
    intro s hsel
    rw [List.flatMap_cons, runFrom_append]
    cases r with
    | activity x y et ty =>
      have h1 : runFrom net s (itemEvents (.activity x y et ty)) = s := by
        simp [runFrom, itemEvents, step, hsel]
      rw [h1, ih _ hsel]
    | leg mode dep =>
      have h1 : runFrom net s (itemEvents (.leg mode dep)) = s := by
        simp [runFrom, itemEvents, step, hsel]
      rw [h1, ih _ hsel]

/-- The events of one plan element, processed with an agent in progress:
trips of a plan selected with exactly "yes" are appended and counted,
any other plan contributes nothing; flag and buffer end cleared. -/
theorem runPlan (net : NetworkData) (p : PlanDoc) (s : PState)
    (hcur : s.current_person_id.isSome = true) :
    runFrom net s (planEvents p) =
      { s with
          is_selected_plan := false
          plan_items := []
          out := s.out ++ (if p.selected = some ("yes")
            then (scanEmit net none s.trip_counter (p.items.map parseItem)).1 else [])
          trip_counter := (if p.selected = some ("yes")
            then (scanEmit net none s.trip_counter (p.items.map parseItem)).2
            else s.trip_counter) } := by
  unfold planEvents
  rw [runFrom_cons, runFrom_append]
  by_cases hsel : p.selected = some ("yes")
  · have h1 : step net s (.startPlan p.selected) =
        { s with is_selected_plan := true, plan_items := [] } := by
      simp [step, hcur, hsel]
    rw [h1, runItems_selected net p.items _ (by simp)]
    simp [runFrom, step, hcur, hsel]
  · have h1 : step net s (.startPlan p.selected) =
        { s with is_selected_plan := false } := by
      simp [step, hcur, hsel]
    rw [h1, runItems_unselected net p.items _ (by simp)]
    simp [runFrom, step, hcur, hsel]

/-- The events of a person's plans, processed with an agent in progress
and a clean plan state. -/
theorem runPlans (net : NetworkData) :
    ∀ (plans : List PlanDoc) (s : PState),
      s.current_person_id.isSome = true → s.is_selected_plan = false →
      s.plan_items = [] →
      runFrom net s (plans.flatMap planEvents) =
        { s with
            is_selected_plan := false
            plan_items := []
            out := s.out ++ (emitPlans net s.trip_counter plans).1
            trip_counter := (emitPlans net s.trip_counter plans).2 } := by
  intro plans
  induction plans with
  | nil =>
    intro s hcur hsel hitems
    obtain ⟨tc, pc, cur, sel, items, out⟩ := s
    simp only at hsel hitems
    subst hsel hitems
    simp [runFrom, emitPlans]
  | cons p plans ih =>
    intro s hcur hsel hitems
    rw [List.flatMap_cons, runFrom_append, runPlan net p s hcur]
    rw [ih _ (by simpa using hcur) (by simp) (by simp)]
    by_cases hps : p.selected = some ("yes")
    · simp only [emitPlans, hps, if_true]
      simp [List.append_assoc]
    · simp only [emitPlans, hps, if_false]
      simp

/-- The events of one person element with an id attribute, from a clean
plan state: the selected plans' trips are appended, the person counter
increments, and the agent id ends cleared. -/
theorem runPerson (net : NetworkData) (p : PersonDoc) (s : PState)
    (hpid : p.pid.isSome = true)
    (hsel : s.is_selected_plan = false) (hitems : s.plan_items = []) :
    runFrom net s (personEvents p) =
      { s with
          current_person_id := none
          person_counter := s.person_counter + 1
          is_selected_plan := false
          plan_items := []
          out := s.out ++ (emitPlans net s.trip_counter p.plans).1
          trip_counter := (emitPlans net s.trip_counter p.plans).2 } := by
  unfold personEvents
  rw [runFrom_cons, runFrom_append]
  have h1 : step net s (.startPerson p.pid) =
      { s with
          current_person_id := p.pid
          person_counter := s.person_counter + 1 } := by
    simp [step]
  rw [h1, runPlans net p.plans _ (by simpa using hpid) (by simpa using hsel)
    (by simpa using hitems)]
  simp [runFrom, step]

/-- The events of a whole person sequence from a clean plan state:
outputs and counter accumulate per person. -/
theorem runDoc (net : NetworkData) :
    ∀ (doc : List PersonDoc) (s : PState),
      (∀ p ∈ doc, p.pid.isSome = true) →
      s.is_selected_plan = false → s.plan_items = [] →
      (runFrom net s (doc.flatMap personEvents)).out
          = s.out ++ (emitDoc net s.trip_counter doc).1 ∧
      (runFrom net s (doc.flatMap personEvents)).trip_counter
          = (emitDoc net s.trip_counter doc).2 ∧
      (runFrom net s (doc.flatMap personEvents)).is_selected_plan = false ∧
      (runFrom net s (doc.flatMap personEvents)).plan_items = [] := by
  intro doc
  induction doc with
  | nil =>
    intro s hpid hsel hitems
    simp [runFrom, emitDoc, hsel, hitems]
  | cons p rest ih =>
    intro s hpid hsel hitems
    rw [List.flatMap_cons, runFrom_append,
      runPerson net p s (hpid p (List.mem_cons_self p rest)) hsel hitems]
    obtain ⟨ho, ht, hs2, hi2⟩ :=
      ih { s with
            current_person_id := none
            person_counter := s.person_counter + 1
            is_selected_plan := false
            plan_items := []
            out := s.out ++ (emitPlans net s.trip_counter p.plans).1
            trip_counter := (emitPlans net s.trip_counter p.plans).2 }
        (fun q hq => hpid q (List.mem_cons_of_mem p hq)) rfl rfl
    refine ⟨?_, ?_, hs2, hi2⟩
    · rw [ho]
      simp [emitDoc, List.append_assoc]
    · rw [ht]
      simp [emitDoc]

/-- Under the load invariant a person's plans emit one line per
qualifying car leg of each plan selected with exactly "yes". -/
theorem emitPlans_length (net : NetworkData) (hinv : loadInv net) :
    ∀ (plans : List PlanDoc) (c : Nat),
      (emitPlans net c plans).1.length =
        ((plans.filter (fun q => q.selected = some ("yes"))).map
          (fun q => qualCountSpec none (q.items.map parseItem))).sum := by
  intro plans
  induction plans with
  | nil => intro c; simp [emitPlans]
  | cons p rest ih =>
    intro c
    by_cases hps : p.selected = some ("yes")
    · simp only [emitPlans, hps, if_true]
      rw [List.length_append, scanEmit_length net hinv, ih]
      have hf : (p :: rest).filter (fun q => q.selected = some ("yes")) =
          p :: rest.filter (fun q => q.selected = some ("yes")) := by
        simp [List.filter_cons, hps]
      rw [hf]
      simp
    · simp only [emitPlans, hps, if_false]
      rw [ih c]
      congr 1
      simp [List.filter_cons, hps]

/-- Under the load invariant the whole document emits one line per
qualifying car leg in selected plans. -/
theorem emitDoc_length (net : NetworkData) (hinv : loadInv net) :
    ∀ (doc : List PersonDoc) (c : Nat),
      (emitDoc net c doc).1.length = docQualCountSpec doc := by
  intro doc
  induction doc with
  | nil => intro c; simp [emitDoc, docQualCountSpec]
  | cons p rest ih =>
    intro c
    simp only [emitDoc, docQualCountSpec, List.map_cons, List.sum_cons]
    rw [List.length_append, emitPlans_length net hinv, ih]
    rfl

/-- Claim C1: for a loaded network and a well-formed population document
(every person carries an id attribute), the number of trip lines written
equals the number of qualifying car legs — car mode, a most recently
seen preceding activity, an immediately following activity, parseable
coordinates on both, and a resolvable start time — in plans selected
with "yes"; no other leg produces a line and no leg produces two. -/
theorem c1_trip_count (f : NetFile) (nd : NetworkData) (doc : List PersonDoc)
    (hload : load_network_data f = some nd)
    (hpid : ∀ p ∈ doc, p.pid.isSome = true) :
    (runEvents nd (docEvents doc)).out.length = docQualCountSpec doc := by
  have hinv := load_network_data_inv f nd hload
  unfold runEvents docEvents
  rw [runFrom_cons]
  have hstart : step nd initState .startOther = initState := rfl
  rw [hstart, runFrom_append]
  obtain ⟨ho, -, -, -⟩ := runDoc nd doc initState hpid rfl rfl
  have hend : ∀ s : PState, runFrom nd s [.endOther] = s := fun s => rfl
  rw [hend, ho]
  simp only [initState, List.nil_append]
  exact emitDoc_length nd hinv doc 0

/-- Claim C1 witness: the count theorem applied to the two-node network
and the one-trip document; the count is 1. -/
theorem c1_trip_count_witness :
    load_network_data netFileC = some netC ∧
    (runEvents netC (docEvents docC)).out.length = docQualCountSpec docC ∧
    docQualCountSpec docC = 1 := by
  refine ⟨by with_unfolding_all decide, ?_, by with_unfolding_all decide⟩
  exact c1_trip_count netFileC netC docC (by with_unfolding_all decide) (by decide)

/-- Claim C10: for a person with several plans, each plan whose
`selected` attribute is exactly "yes" is extracted independently and
contributes its trips in document order; a plan whose `selected` is
absent or anything else (for example "Yes" or "true") contributes
nothing. `emitPlans` is that spec-side description. -/
theorem c10_selected_plans (net : NetworkData) (pid : String) (plans : List PlanDoc) :
    (runEvents net (docEvents [⟨some pid, plans⟩])).out = (emitPlans net 0 plans).1 := by
  unfold runEvents docEvents
  rw [runFrom_cons]
  have hstart : step net initState .startOther = initState := rfl
  rw [hstart, runFrom_append, List.flatMap_cons, List.flatMap_nil, List.append_nil,
    runPerson net ⟨some pid, plans⟩ initState rfl rfl rfl]
  rfl

theorem tripNamesInv_step (net : NetworkData) (s : PState) (e : XmlEvent)
    (h : TripNamesInv s) : TripNamesInv (step net s e) := by
  obtain ⟨hc, hn⟩ := h
  cases e with
  | startPerson pid => exact ⟨hc, hn⟩
  | startPlan sel =>
    simp only [step]
    by_cases hcur : s.current_person_id.isSome
    · rw [if_pos hcur]
      by_cases hs : sel = some ("yes")
      · rw [if_pos hs]; exact ⟨hc, hn⟩
      · rw [if_neg hs]; exact ⟨hc, hn⟩
    · rw [if_neg hcur]; exact ⟨hc, hn⟩
  | startOther => exact ⟨hc, hn⟩
  | endActivity x y et ty =>
    simp only [step]
    by_cases hb : s.is_selected_plan = true
    · rw [if_pos hb]; exact ⟨hc, hn⟩
    · rw [if_neg hb]; exact ⟨hc, hn⟩
  | endLeg mode dep =>
    simp only [step]
    by_cases hb : s.is_selected_plan = true
    · rw [if_pos hb]; exact ⟨hc, hn⟩
    · rw [if_neg hb]; exact ⟨hc, hn⟩
  | endPlan =>
    simp only [step]
    by_cases hcur : s.current_person_id.isSome
    · rw [if_pos hcur]
      by_cases hsel : s.is_selected_plan = true
      · simp only [hsel, if_true]
        constructor
        · show (scanEmit net none s.trip_counter s.plan_items).2
            = (s.out ++ (scanEmit net none s.trip_counter s.plan_items).1).length
          rw [scanEmit_counter, List.length_append, hc]
        · intro i line hget
          simp only at hget
          by_cases hi : i < s.out.length
          · rw [List.get?_append hi] at hget
            exact hn i line hget
          · rw [List.get?_append_right (le_of_not_lt hi)] at hget
            obtain ⟨o, d, l, st, hline⟩ :=
              scanEmit_names net s.plan_items none s.trip_counter
                (i - s.out.length) line hget
            refine ⟨o, d, l, st, ?_⟩
            rw [hline]
            have harith : s.trip_counter + (i - s.out.length) + 1 = i + 1 := by
              omega
            rw [harith]
      · rw [if_neg hsel]
        exact ⟨by simpa using hc, fun i line hget => hn i line (by simpa using hget)⟩
    · rw [if_neg hcur]; exact ⟨hc, hn⟩
  | endPerson => exact ⟨hc, hn⟩
  | endOther => exact ⟨hc, hn⟩

/-- Claim C5: the trip counter equals the number of lines written, and
the line at position `i` (0-based) is a trip record named `t(i+1)` — so
names form the contiguous run t1..tN in discovery order, strictly
increasing, never reordered and never reused; this holds for every event
stream. -/
theorem c5_trip_numbering (net : NetworkData) (events : List XmlEvent) :
    (runEvents net events).trip_counter = (runEvents net events).out.length ∧
    ∀ i line, (runEvents net events).out.get? i = some line →
      ∃ o d l st, line = renderTrip (tName (i + 1)) o d l st := by
  have hrun : ∀ (es : List XmlEvent) (s : PState),
      TripNamesInv s → TripNamesInv (runFrom net s es) := by
    intro es
    induction es with
    | nil => intro s h; exact h
    | cons e es ih => intro s h; exact ih _ (tripNamesInv_step net s e h)
  have hinit : TripNamesInv initState := by
    refine ⟨rfl, ?_⟩
    intro i line h
    simp [initState, List.get?] at h
  exact hrun events initState hinit

/-- Claim C5 witness: in the one-trip document run the line at position
0 is named t1. -/
theorem c5_trip_numbering_witness :
    ∃ o d l st,
      renderTrip (tName 1) ("n1") ("n2") ("l1") 25200 = renderTrip (tName (0 + 1)) o d l st :=
  (c5_trip_numbering netC (docEvents docC)).2 0
    (renderTrip (tName 1) ("n1") ("n2") ("l1") 25200) (by with_unfolding_all decide)

/-- Claim C4 counterexample: a missing network file is a fatal load
failure, yet the exit status is 0 — the script never calls `sys.exit`;
it prints the failure and falls off the end of `__main__`. -/
theorem c4_exit_code_counterexample :
    fatalFailure .missing (.wellFormed []) true ∧
    mainExit .missing (.wellFormed []) true = 0 :=
  ⟨Or.inl rfl, rfl⟩

/-- Claim C4, amended: the exit status is 0 for every modeled input,
fatal failures included; such failures only print to stderr and abort
the remaining processing. -/
theorem c4_exit_code (netF : NetFile) (pop : PopFile) (outOk : Bool) :
    mainExit netF pop outOk = 0 := by
  unfold mainExit
  cases load_network_data netF with
  | none => rfl
  | some nd => rfl
